import Mathlib

/-!
Verification of the core analyses of the JS code-smell detector (`src/smells.js`):
the "Nested Callbacks (Callback Hell)" check (`detectNestedClosures`) and the
"Duplicate Code" check (`analyzeSimilarity`, `levenshteinDistance`, block
extraction and the pairwise comparison loop).

The Babel parser, `@babel/traverse` and `@babel/generator` are external
collaborators.  They are modelled as follows:
* a parse outcome is an `Except String JSNode` (the `Program` node on success,
  the parser's error message on failure); `console.error` diagnostics are
  modelled as a returned list of diagnostic strings;
* a syntax node carries its `type` tag, its optional `loc.start.line`, its
  optional `id.name`, and the source text `@babel/generator` would regenerate
  for it (`gen`);
* children are split exactly the way the duck-typed traversal in
  `detectNestedClosures` distinguishes them: the `body` slot (absent, a single
  node, or an array of nodes), the `arguments` list of a call expression, and
  the remaining properties, each of which is either an object-valued property
  carrying a `type` tag (`nodeProp`) or an array-valued property such as a
  `VariableDeclaration`'s `declarations` list (`arrProp`), which has no `type`
  tag and is therefore invisible to the generic `for key in node` descent.
-/

mutual

inductive JSNode : Type where
  | mk (ty : String) (loc : Option Nat) (idName : Option String) (gen : String)
       (body : JSBody) (args : List JSNode) (props : List JSProp)

inductive JSBody : Type where
  | noBody : JSBody
  | one (n : JSNode) : JSBody
  | many (ns : List JSNode) : JSBody

inductive JSProp : Type where
  | nodeProp (n : JSNode) : JSProp
  | arrProp (ns : List JSNode) : JSProp

end

def JSNode.ty : JSNode → String
  | .mk t _ _ _ _ _ _ => t

def JSNode.loc : JSNode → Option Nat
  | .mk _ l _ _ _ _ _ => l

def JSNode.gen : JSNode → String
  | .mk _ _ _ g _ _ _ => g

def JSNode.idName : JSNode → Option String
  | .mk _ _ i _ _ _ _ => i

/-- Node types that increment the nesting depth in `detectNestedClosures`
(`FunctionDeclaration`, `FunctionExpression`, `ArrowFunctionExpression`). -/
def isFnType (ty : String) : Bool :=
  ty == "FunctionDeclaration" || ty == "FunctionExpression" ||
    ty == "ArrowFunctionExpression"

/-- Argument types that the `CallExpression` branch of `detectNestedClosures`
recurses into (`FunctionExpression` or `ArrowFunctionExpression`). -/
def isFnArg (ty : String) : Bool :=
  ty == "FunctionExpression" || ty == "ArrowFunctionExpression"

/-- Traversal state of `detectNestedClosures`: the mutable `reportedLines` set
(kept as a list) and the mutable `issues` array of `(line, depth)` pairs (the
issue's description string is determined by these two numbers). -/
abbrev NCState := List Nat × List (Nat × Nat)

mutual

/-- Shallow embedding of `detectNestedClosures` from the "Nested Callbacks"
check in `src/smells.js` (lines 110-166).  On each node: increment `depth` for
function-like nodes; report `(line, depth)` once per line when
`depth > maxAllowedDepth`; recurse into function-like call arguments, then into
`body` (single node or array), then into the other object-valued,
`type`-tagged properties. -/
def detectNestedClosures (maxD : Nat) : JSNode → Nat → NCState → NCState
  | .mk ty loc _ _ body args _props, depth, st =>
    let depth' := if isFnType ty then depth + 1 else depth
    let st1 :=
      if maxD < depth' then
        let line := loc.getD 0
        if st.1.contains line then st
        else (st.1 ++ [line], st.2 ++ [(line, depth')])
      else st
    let st2 := if ty == "CallExpression" then dncArgs maxD args depth' st1 else st1
    let st3 := dncBody maxD body depth' st2
    dncProps maxD _props depth' st3

def dncArgs (maxD : Nat) : List JSNode → Nat → NCState → NCState
  | [], _, st => st
  | a :: rest, depth, st =>
    let st' := if isFnArg a.ty then detectNestedClosures maxD a depth st else st
    dncArgs maxD rest depth st'

def dncBody (maxD : Nat) : JSBody → Nat → NCState → NCState
  | .noBody, _, st => st
  | .one b, depth, st => detectNestedClosures maxD b depth st
  | .many bs, depth, st => dncBodyList maxD bs depth st

def dncBodyList (maxD : Nat) : List JSNode → Nat → NCState → NCState
  | [], _, st => st
  | b :: bs, depth, st =>
    dncBodyList maxD bs depth (detectNestedClosures maxD b depth st)

def dncProps (maxD : Nat) : List JSProp → Nat → NCState → NCState
  | [], _, st => st
  | .nodeProp n :: rest, depth, st =>
    dncProps maxD rest depth (detectNestedClosures maxD n depth st)
  | .arrProp _ :: rest, depth, st => dncProps maxD rest depth st

end

/-- Threshold `maxAllowedDepth` of the Nested Callbacks check. -/
def maxAllowedDepth : Nat := 3

/-- The "Nested Callbacks (Callback Hell)" check, from the parse outcome on:
on parse failure it logs one diagnostic and returns no issues, otherwise it
runs `detectNestedClosures(ast.program)` starting at depth 0 with empty
reported-line set and issue list. -/
def nestedCallbacksCheck (r : Except String JSNode) :
    List (Nat × Nat) × List String :=
  match r with
  | .error e => ([], ["Error parsing file: " ++ e])
  | .ok program => ((detectNestedClosures maxAllowedDepth program 0 ([], [])).2, [])

/- Function-nesting depth of the full tree: the largest number of
function-like nodes on any root-to-leaf path, counting every child slot
(body, call arguments and all other properties, including the contents of
array-valued properties).  A node is "nested `d` levels deep" when `d`
function-like nodes enclose it (itself included), whether lexically or as a
callback argument. -/
mutual

def fnDepth : JSNode → Nat
  | .mk ty _ _ _ body args props =>
    (if isFnType ty then 1 else 0) +
      max (fnDepthBody body) (max (fnDepthList args) (fnDepthProps props))

def fnDepthBody : JSBody → Nat
  | .noBody => 0
  | .one n => fnDepth n
  | .many ns => fnDepthList ns

def fnDepthList : List JSNode → Nat
  | [] => 0
  | n :: ns => max (fnDepth n) (fnDepthList ns)

def fnDepthProps : List JSProp → Nat
  | [] => 0
  | .nodeProp n :: rest => max (fnDepth n) (fnDepthProps rest)
  | .arrProp ns :: rest => max (fnDepthList ns) (fnDepthProps rest)

end

/-- A chain of `n` nested arrow functions (`n ≥ 1`), the outermost at source
line `l`, each nested one directly in the body of the previous one and one
line further down. -/
def chainArrow : Nat → Nat → JSNode
  | 0, l => .mk "ArrowFunctionExpression" (some l) none "" JSBody.noBody [] []
  | 1, l => .mk "ArrowFunctionExpression" (some l) none "" JSBody.noBody [] []
  | n + 2, l =>
    .mk "ArrowFunctionExpression" (some l) none ""
      (JSBody.one (chainArrow (n + 1) (l + 1))) [] []

/-- A chain of nested arrow functions with arbitrary source lines: the
outermost arrow sits at line `l`, each following arrow directly in the body
of the previous one at the next line of `rest`.  Lines may repeat — several
arrows of the chain can share one source line, as in
`a => b => c => d => e` written on a single line. -/
def chainAt : Nat → List Nat → JSNode
  | l, [] => .mk "ArrowFunctionExpression" (some l) none "" JSBody.noBody [] []
  | l, l1 :: rest =>
    .mk "ArrowFunctionExpression" (some l) none ""
      (JSBody.one (chainAt l1 rest)) [] []

/-- The triggering lines of a chain whose arrows sit at the lines of `ls`,
entered at depth `d`: the line of every arrow whose depth `d + 1 + i`
exceeds the threshold, with multiplicity and in chain order. -/
def trigLines (maxD : Nat) : List Nat → Nat → List Nat
  | [], _ => []
  | l :: ls, d => (if maxD < d + 1 then [l] else []) ++ trigLines maxD ls (d + 1)

/-- Invariant of the traversal state of `detectNestedClosures`: the reported
issue lines are pairwise distinct, and each of them is in the
`reportedLines` set. -/
def StInv (st : NCState) : Prop :=
  (st.2.map Prod.fst).Nodup ∧ ∀ x ∈ st.2.map Prod.fst, x ∈ st.1

/-- An identifier node (a callee, for instance). -/
def identNode (l : Nat) : JSNode := .mk "Identifier" (some l) none "" .noBody [] []

/-- A `const`-style declaration whose declarator list is an array-valued
property (`declarations`) holding arbitrary hidden subtrees (for instance
declarators whose `init` is an arbitrarily deep arrow chain).  The
array-valued property has no `type` tag, so the generic descent of
`detectNestedClosures` never enters it. -/
def hiddenDecl (hidden : List JSNode) (l : Nat) : JSNode :=
  .mk "VariableDeclaration" (some l) none "" .noBody [] [.arrProp hidden]

/-- A call whose single argument is an object literal (not function-like)
whose `properties` array hides arbitrary subtrees. -/
def objArgCall (hidden : List JSNode) (l : Nat) : JSNode :=
  .mk "CallExpression" (some l) none "" .noBody
    [.mk "ObjectExpression" (some l) none "" .noBody [] [.arrProp hidden]]
    [.nodeProp (identNode l)]

/-- A program whose only function-like nesting sits behind a variable
declaration's declarator array and behind a non-function call argument. -/
def hiddenProg (hidden1 hidden2 : List JSNode) (l1 l2 : Nat) : JSNode :=
  .mk "Program" (some 1) none ""
    (.many [hiddenDecl hidden1 l1,
      .mk "ExpressionStatement" (some l2) none "" .noBody []
        [.nodeProp (objArgCall hidden2 l2)]]) [] []

/-- Constant `MIN_DUPLICATE_LENGTH` of the Duplicate Code check. -/
def MIN_DUPLICATE_LENGTH : Nat := 5

/-- Constant `SIMILARITY_THRESHOLD` of the Duplicate Code check. -/
def SIMILARITY_THRESHOLD : ℚ := 0.8

/-- Inner loop body of `levenshteinDistance` (`src/smells.js` lines 305-314):
given the previous matrix row walked alongside `str1` and the cell to the
left, produce the cells `matrix[j][1..str1.length]` of the current row.
`pd` is `matrix[j-1][i-1]` (diagonal), `prev.headD 0` is `matrix[j-1][i]`
(above), `left` is `matrix[j][i-1]`. -/
def levRowAux (c2 : Char) : List Char → List Nat → Nat → List Nat
  | [], _, _ => []
  | _ :: _, [], _ => []
  | c1 :: s1, pd :: prev, left =>
    let cell := min (left + 1) (min (prev.headD 0 + 1) (pd + if c1 = c2 then 0 else 1))
    cell :: levRowAux c2 s1 prev cell

/-- Outer loop of `levenshteinDistance`: fold the rows `j = 1..str2.length`
over the characters of `str2`; each new row starts with `matrix[j][0] = j`
(one more than the previous row's first cell). -/
def levRows (s1 : List Char) : List Char → List Nat → List Nat
  | [], row => row
  | c2 :: s2, row =>
    levRows s1 s2 ((row.headD 0 + 1) :: levRowAux c2 s1 row (row.headD 0 + 1))

/-- Shallow embedding of `levenshteinDistance` from `src/smells.js` (lines
299-316): dynamic-programming matrix with `matrix[0][i] = i`,
`matrix[j][0] = j` and
`matrix[j][i] = min(matrix[j][i-1]+1, matrix[j-1][i]+1, matrix[j-1][i-1]+ind)`,
returning `matrix[str2.length][str1.length]` (the last cell of the last
row). -/
def levenshteinDistance (str1 str2 : String) : Nat :=
  (levRows str1.toList str2.toList (List.range (str1.length + 1))).getLastD 0

/-- Reference recursive definition of the classic single-character
insert/delete/substitute edit distance, with the three candidates in the
same order as the `Math.min` call of the source (left cell, cell above,
diagonal). -/
def levRec : List Char → List Char → Nat
  | [], s2 => s2.length
  | _ :: s1, [] => s1.length + 1
  | c1 :: s1, c2 :: s2 =>
    min (levRec s1 (c2 :: s2) + 1)
      (min (levRec (c1 :: s1) s2 + 1) (levRec s1 s2 + if c1 = c2 then 0 else 1))
termination_by s1 s2 => (s1.length, s2.length)

/-- The row of reference distances `levRec` assigns to the successive
extensions of an accumulated first string `P` by the characters of `s`,
against a fixed second string `T`.  `rowVals [] T s` is the matrix row for
second-string value `T`, read through the reversed-string correspondence. -/
def rowVals : List Char → List Char → List Char → List Nat
  | P, T, [] => [levRec P T]
  | P, T, c :: rest => levRec P T :: rowVals (c :: P) T rest

/-- JavaScript values that the Duplicate Code check stores in a line-mapping
entry: a (line) number, a (one-character or whole) string, or `undefined`. -/
inductive JVal : Type where
  | num (n : Nat)
  | str (s : String)
  | undefined
deriving DecidableEq

/-- One element of a `matches` entry of `analyzeSimilarity`: either the
array `[i+1, j+1, trimmedLine]` pushed by the line-matching loop, or one of
the two whole strings from the identical-string short-circuit
(`matches: [[str1, str2]]`). -/
inductive MatchItem : Type where
  | cell (a b : Nat) (text : String)
  | whole (s : String)
deriving DecidableEq

/-- JavaScript indexing `m[k]` on a `matches` element: on a
`[i+1, j+1, text]` triple it yields its components; on a whole string it
yields the `k`-th character as a one-character string, or `undefined` past
the end. -/
def itemAt (m : MatchItem) (k : Nat) : JVal :=
  match m with
  | .cell a b t =>
    if k = 0 then .num a
    else if k = 1 then .num b
    else if k = 2 then .str t
    else .undefined
  | .whole s =>
    match s.toList.get? k with
    | some c => .str (String.singleton c)
    | none => .undefined

/-- One entry of the `lineMapping` built when a Duplicate Code issue is
emitted: `{block1Lines, block2Lines, code}`, each the `m[0]`/`m[1]`/`m[2]`
projection of the match. -/
structure LineMapping : Type where
  block1Lines : List JVal
  block2Lines : List JVal
  code : List JVal
deriving DecidableEq

/-- Result record of `analyzeSimilarity`: `{similarity, matches}`. -/
structure SimAnalysis : Type where
  similarity : ℚ
  matches' : List (List MatchItem)
deriving DecidableEq

/-- JavaScript `str.split("\\n")`: the segments of the character sequence
between newline characters (`"".split("\\n")` is `[""]`). -/
def splitLinesAux : List Char → List Char → List String
  | [], acc => [String.mk acc.reverse]
  | c :: rest, acc =>
    if c = '\n' then String.mk acc.reverse :: splitLinesAux rest []
    else splitLinesAux rest (c :: acc)

/-- JavaScript `str.split("\\n")` on a string. -/
def splitLines (s : String) : List String := splitLinesAux s.toList []

/-- JavaScript `str.trim()`: strip whitespace from both ends. -/
def jsTrim (s : String) : String :=
  String.mk ((s.toList.dropWhile Char.isWhitespace).reverse.dropWhile
    Char.isWhitespace).reverse

/-- Row-major sequence of the nested line-comparison loops of
`analyzeSimilarity`: one entry per pair `(i, j)`, carrying
`(i+1, j+1, lines1[i].trim())` when the trimmed lines are identical and
nothing otherwise. -/
def simCells (lines1 lines2 : List String) : List (Option (Nat × Nat × String)) :=
  lines1.enum.flatMap (fun p =>
    lines2.enum.map (fun q =>
      if jsTrim p.2 = jsTrim q.2 then some (p.1 + 1, q.1 + 1, jsTrim p.2) else none))

/-- Loop body of the line-matching loop of `analyzeSimilarity` (lines
277-289): a matching pair extends `currentMatch`; a mismatching pair flushes
`currentMatch` into `matches` when it holds at least 2 entries, and resets
it. -/
def simStep (st : List MatchItem × List (List MatchItem))
    (cell : Option (Nat × Nat × String)) :
    List MatchItem × List (List MatchItem) :=
  match cell with
  | some (i, j, t) => (st.1 ++ [MatchItem.cell i j t], st.2)
  | none =>
    if 0 < st.1.length then
      if 2 ≤ st.1.length then ([], st.2 ++ [st.1]) else ([], st.2)
    else st

/-- Shallow embedding of `analyzeSimilarity` from `src/smells.js` (lines
263-297).  Identical strings short-circuit to similarity `1.0` with the
degenerate match `[[str1, str2]]`; a string shorter than
`MIN_DUPLICATE_LENGTH` gives similarity `0.0`; otherwise the line-matching
loop runs over the row-major pair sequence and the scalar similarity is
`(longerLength - levenshteinDistance(longer, shorter)) / longerLength`. -/
def analyzeSimilarity (str1 str2 : String) : SimAnalysis :=
  if str1 = str2 then ⟨1, [[MatchItem.whole str1, MatchItem.whole str2]]⟩
  else if str1.length < MIN_DUPLICATE_LENGTH ∨ str2.length < MIN_DUPLICATE_LENGTH then
    ⟨0, []⟩
  else
    let lines1 := splitLines str1
    let lines2 := splitLines str2
    let matchList := (List.foldl simStep ([], []) (simCells lines1 lines2)).2
    let longer := if str2.length < str1.length then str1 else str2
    let shorter := if str2.length < str1.length then str2 else str1
    let longerLength := longer.length
    let distance := levenshteinDistance longer shorter
    ⟨((longerLength : ℚ) - (distance : ℚ)) / (longerLength : ℚ), matchList⟩

/-- Declarative reading of the line-matching loop: split the row-major pair
sequence into maximal runs of consecutive matching pairs; a run of length at
least 2 is reported if and only if it is terminated by a later mismatching
pair — a run still open when the loops end is discarded, never flushed. -/
def collectClusters : List MatchItem → List (Option (Nat × Nat × String)) →
    List (List MatchItem)
  | _, [] => []
  | cur, some (i, j, t) :: rest => collectClusters (cur ++ [MatchItem.cell i j t]) rest
  | cur, none :: rest => (if 2 ≤ cur.length then [cur] else []) ++ collectClusters [] rest

/-- A code block collected by the Duplicate Code check: the regenerated
source text, the node type and the function name (or `"anonymous"`). -/
structure CodeBlock : Type where
  code : String
  type : String
  name : String
deriving DecidableEq

/- Pre-order traversal of every node of the tree, the order `@babel/traverse`
visits them for the Duplicate Code check (every child slot is visited,
including array-valued properties). -/
mutual

def allNodes : JSNode → List JSNode
  | .mk ty loc idn g body args props =>
    .mk ty loc idn g body args props :: (bodyAll body ++ argsAll args ++ propsAll props)

def bodyAll : JSBody → List JSNode
  | .noBody => []
  | .one n => allNodes n
  | .many ns => argsAll ns

def argsAll : List JSNode → List JSNode
  | [] => []
  | n :: ns => allNodes n ++ argsAll ns

def propsAll : List JSProp → List JSNode
  | [] => []
  | .nodeProp n :: r => allNodes n ++ propsAll r
  | .arrProp ns :: r => argsAll ns ++ propsAll r

end

/-- Node types collected as code blocks by the Duplicate Code check
(`FunctionDeclaration`, `ClassMethod`, `ArrowFunctionExpression`). -/
def isDupBlockType (ty : String) : Bool :=
  ty == "FunctionDeclaration" || ty == "ClassMethod" || ty == "ArrowFunctionExpression"

/-- `path.node.id?.name || "anonymous"` (an empty name is falsy). -/
def blockName (idn : Option String) : String :=
  match idn with
  | some s => if s = "" then "anonymous" else s
  | none => "anonymous"

/-- The `(location, block)` pairs the AST traversal of the Duplicate Code
check records, in visiting order: every function-like node whose regenerated
text has at least `MIN_DUPLICATE_LENGTH` characters, keyed by
`loc?.start.line || 0`. -/
def blockCandidates (root : JSNode) : List (Nat × CodeBlock) :=
  (allNodes root).filterMap (fun n =>
    if isDupBlockType n.ty ∧ MIN_DUPLICATE_LENGTH ≤ n.gen.length then
      some (n.loc.getD 0, ⟨n.gen, n.ty, blockName n.idName⟩)
    else none)

/-- JavaScript `Map.set` on an insertion-ordered association list: an
existing key keeps its position and gets the new value, a new key is
appended. -/
def mapSet (m : List (Nat × CodeBlock)) (k : Nat) (v : CodeBlock) :
    List (Nat × CodeBlock) :=
  if m.any (fun p => p.1 == k) then m.map (fun p => if p.1 == k then (k, v) else p)
  else m ++ [(k, v)]

/-- JavaScript `Map.get`. -/
def mapGet (m : List (Nat × CodeBlock)) (k : Nat) : Option CodeBlock :=
  (m.find? (fun p => p.1 == k)).map (fun p => p.2)

/-- The `codeBlocks` map of the Duplicate Code check: every candidate
recorded in visiting order with `Map.set` keyed by start line. -/
def extractBlocks (root : JSNode) : List (Nat × CodeBlock) :=
  (blockCandidates root).foldl (fun m p => mapSet m p.1 p.2) []

/-- Block identity carried inside an emitted Duplicate Code issue:
`{startLine, type, name}`. -/
structure BlockRef : Type where
  startLine : Nat
  type : String
  name : String
deriving DecidableEq

/-- An emitted Duplicate Code issue: reported line (`min(loc1, loc2)`), the
two block identities, and the `similarLines` line mapping.  The
`description` and `message` strings of the source are presentation text
derived from these fields and the similarity score. -/
structure DupIssue : Type where
  line : Nat
  block1 : BlockRef
  block2 : BlockRef
  similarLines : List LineMapping
deriving DecidableEq

/-- The `lineMapping` construction (lines 348-354): project each match
element with `m[0]`, `m[1]`, `m[2]`. -/
def toLineMapping (m : List MatchItem) : LineMapping :=
  ⟨m.map (fun x => itemAt x 0), m.map (fun x => itemAt x 1), m.map (fun x => itemAt x 2)⟩

/-- Body of the nested `forEach` comparison loop (lines 339-390): skip equal
keys, deduplicate unordered pairs through the sorted pair key, run
`analyzeSimilarity`, and emit an issue when the similarity reaches
`SIMILARITY_THRESHOLD`. -/
def dupPairStep (b1 : Nat × CodeBlock) (st : List (Nat × Nat) × List DupIssue)
    (b2 : Nat × CodeBlock) : List (Nat × Nat) × List DupIssue :=
  if b1.1 ≠ b2.1 then
    if st.1.contains (min b1.1 b2.1, max b1.1 b2.1) then st
    else
      let analysis := analyzeSimilarity b1.2.code b2.2.code
      if SIMILARITY_THRESHOLD ≤ analysis.similarity then
        (st.1 ++ [(min b1.1 b2.1, max b1.1 b2.1)],
         st.2 ++ [⟨min b1.1 b2.1, ⟨b1.1, b1.2.type, b1.2.name⟩,
           ⟨b2.1, b2.2.type, b2.2.name⟩, analysis.matches'.map toLineMapping⟩])
      else (st.1 ++ [(min b1.1 b2.1, max b1.1 b2.1)], st.2)
  else st

/-- The full comparison loop over the `codeBlocks` map. -/
def dupCompare (blocks : List (Nat × CodeBlock)) : List DupIssue :=
  (blocks.foldl (fun st b1 => blocks.foldl (dupPairStep b1) st) ([], [])).2

/-- The "Duplicate Code" check from the parse outcome on: on parse failure
it logs one diagnostic and returns no issues, otherwise it extracts the code
blocks and compares every unordered pair. -/
def duplicateCodeCheck (r : Except String JSNode) : List DupIssue × List String :=
  match r with
  | .error e => ([], ["Error parsing file: " ++ e])
  | .ok ast => (dupCompare (extractBlocks ast), [])

/-- A six-line arrow-function body text. -/
def sixLineCode : String := "() => \x7b\n  a();\n  b();\n  c();\n  d();\n\x7d"

/-- An arrow-function node at line `l` whose regenerated text is the
six-line block. -/
def c1Arrow (l : Nat) : JSNode :=
  .mk "ArrowFunctionExpression" (some l) none sixLineCode .noBody [] []

/-- A program holding three identical six-line arrow functions at lines 1,
8 and 15. -/
def c1Prog : JSNode :=
  .mk "Program" (some 1) none ""
    (.many [.mk "ExpressionStatement" (some 1) none "" .noBody [] [.nodeProp (c1Arrow 1)],
      .mk "ExpressionStatement" (some 8) none "" .noBody [] [.nodeProp (c1Arrow 8)],
      .mk "ExpressionStatement" (some 15) none "" .noBody [] [.nodeProp (c1Arrow 15)]])
    [] []

/-- The degenerate line mapping the identical-string short-circuit produces
for the six-line block: the `m[0]`/`m[1]`/`m[2]` projections of the two
whole strings are their first, second and third characters. -/
def degenerateMapping : LineMapping :=
  ⟨[.str "(", .str "("], [.str ")", .str ")"], [.str " ", .str " "]⟩

/-- The block reference of the six-line arrow at line `l`. -/
def c1Ref (l : Nat) : BlockRef := ⟨l, "ArrowFunctionExpression", "anonymous"⟩

/-- The issue list the Duplicate Code check emits on `c1Prog`: the three
unordered pairs, each carrying the degenerate mapping. -/
def c1Issues : List DupIssue :=
  [⟨1, c1Ref 1, c1Ref 8, [degenerateMapping]⟩,
   ⟨1, c1Ref 1, c1Ref 15, [degenerateMapping]⟩,
   ⟨8, c1Ref 8, c1Ref 15, [degenerateMapping]⟩]

theorem isFnType_arrow : isFnType "ArrowFunctionExpression" = true := rfl

theorem arrow_beq_call : ("ArrowFunctionExpression" == "CallExpression") = false := rfl

mutual

theorem dnc_noop (maxD : Nat) : ∀ (n : JSNode) (depth : Nat) (st : NCState),
    depth + fnDepth n ≤ maxD → detectNestedClosures maxD n depth st = st
  | .mk ty loc idn g body args props, depth, st, h => by
    unfold fnDepth at h
    have hb : fnDepthBody body ≤
        fnDepthBody body ⊔ (fnDepthList args ⊔ fnDepthProps props) := le_sup_left
    have ha : fnDepthList args ≤
        fnDepthBody body ⊔ (fnDepthList args ⊔ fnDepthProps props) :=
      le_sup_of_le_right le_sup_left
    have hp : fnDepthProps props ≤
        fnDepthBody body ⊔ (fnDepthList args ⊔ fnDepthProps props) :=
      le_sup_of_le_right le_sup_right
    have hdep : (if isFnType ty then depth + 1 else depth) =
        depth + (if isFnType ty then 1 else 0) := by split <;> omega
    simp only [detectNestedClosures, hdep]
    rw [if_neg (show ¬ maxD < depth + (if isFnType ty then 1 else 0) by omega)]
    rw [show (if (ty == "CallExpression") = true then
        dncArgs maxD args (depth + (if isFnType ty then 1 else 0)) st else st) = st from by
      split
      · exact dncArgs_noop maxD args _ st (by omega)
      · rfl]
    rw [dncBody_noop maxD body _ st (by omega)]
    exact dncProps_noop maxD props _ st (by omega)

theorem dncArgs_noop (maxD : Nat) : ∀ (ns : List JSNode) (depth : Nat) (st : NCState),
    depth + fnDepthList ns ≤ maxD → dncArgs maxD ns depth st = st
  | [], _, st, _ => rfl
  | a :: rest, depth, st, h => by
    unfold fnDepthList at h
    have h1 : fnDepth a ≤ fnDepth a ⊔ fnDepthList rest := le_sup_left
    have h2 : fnDepthList rest ≤ fnDepth a ⊔ fnDepthList rest := le_sup_right
    unfold dncArgs
    rw [show (if isFnArg a.ty then detectNestedClosures maxD a depth st else st) = st from by
      split
      · exact dnc_noop maxD a depth st (by omega)
      · rfl]
    exact dncArgs_noop maxD rest depth st (by omega)

theorem dncBody_noop (maxD : Nat) : ∀ (b : JSBody) (depth : Nat) (st : NCState),
    depth + fnDepthBody b ≤ maxD → dncBody maxD b depth st = st
  | .noBody, _, _, _ => rfl
  | .one n, depth, st, h => dnc_noop maxD n depth st (by
      unfold fnDepthBody at h; omega)
  | .many ns, depth, st, h => dncBodyList_noop maxD ns depth st (by
      unfold fnDepthBody at h; omega)

theorem dncBodyList_noop (maxD : Nat) : ∀ (ns : List JSNode) (depth : Nat) (st : NCState),
    depth + fnDepthList ns ≤ maxD → dncBodyList maxD ns depth st = st
  | [], _, _, _ => rfl
  | n :: ns, depth, st, h => by
    unfold fnDepthList at h
    have h1 : fnDepth n ≤ fnDepth n ⊔ fnDepthList ns := le_sup_left
    have h2 : fnDepthList ns ≤ fnDepth n ⊔ fnDepthList ns := le_sup_right
    unfold dncBodyList
    rw [dnc_noop maxD n depth st (by omega)]
    exact dncBodyList_noop maxD ns depth st (by omega)

theorem dncProps_noop (maxD : Nat) : ∀ (ps : List JSProp) (depth : Nat) (st : NCState),
    depth + fnDepthProps ps ≤ maxD → dncProps maxD ps depth st = st
  | [], _, _, _ => rfl
  | .nodeProp n :: rest, depth, st, h => by
    unfold fnDepthProps at h
    have h1 : fnDepth n ≤ fnDepth n ⊔ fnDepthProps rest := le_sup_left
    have h2 : fnDepthProps rest ≤ fnDepth n ⊔ fnDepthProps rest := le_sup_right
    unfold dncProps
    rw [dnc_noop maxD n depth st (by omega)]
    exact dncProps_noop maxD rest depth st (by omega)
  | .arrProp ns :: rest, depth, st, h => by
    unfold fnDepthProps at h
    have h2 : fnDepthProps rest ≤ fnDepthList ns ⊔ fnDepthProps rest := le_sup_right
    unfold dncProps
    exact dncProps_noop maxD rest depth st (by omega)

end

/-- C2: for every syntax tree in which no function-like node is nested more
than `maxD` levels deep — `fnDepth` counts nesting through every child slot,
lexical or callback-argument — the traversal of `detectNestedClosures`
starting at depth 0 reports no violations. -/
theorem nesting_below_threshold_no_violation (maxD : Nat) (root : JSNode)
    (h : fnDepth root ≤ maxD) :
    (detectNestedClosures maxD root 0 ([], [])).2 = [] := by
  rw [dnc_noop maxD root 0 ([], []) (by omega)]

theorem nesting_below_threshold_no_violation_witness :
    fnDepth (chainArrow 3 1) ≤ 3 ∧
      (detectNestedClosures 3 (chainArrow 3 1) 0 ([], [])).2 = [] :=
  ⟨by decide, nesting_below_threshold_no_violation 3 (chainArrow 3 1) (by decide)⟩

theorem report_inv (st : NCState) (line d : Nat) (h : StInv st) :
    StInv (if st.1.contains line then st
      else (st.1 ++ [line], st.2 ++ [(line, d)])) := by
  by_cases hc : st.1.contains line
  · rw [if_pos hc]
    exact h
  · rw [if_neg hc]
    constructor
    · show ((st.2 ++ [(line, d)]).map Prod.fst).Nodup
      rw [List.map_append, List.nodup_append]
      refine ⟨h.1, List.nodup_singleton _, ?_⟩
      intro x hx hmem
      have hxl : x = line := by simpa using hmem
      subst hxl
      exact hc (List.elem_iff.mpr (h.2 x hx))
    · show ∀ x ∈ (st.2 ++ [(line, d)]).map Prod.fst, x ∈ st.1 ++ [line]
      intro x hx
      rw [List.map_append] at hx
      rcases List.mem_append.mp hx with hx | hx
      · exact List.mem_append.mpr (Or.inl (h.2 x hx))
      · have hxl : x = line := by simpa using hx
        subst hxl
        exact List.mem_append.mpr (Or.inr (List.mem_singleton.mpr rfl))

mutual

theorem dnc_inv (maxD : Nat) : ∀ (n : JSNode) (depth : Nat) (st : NCState),
    StInv st → StInv (detectNestedClosures maxD n depth st)
  | .mk ty loc idn g body args props, depth, st, h => by
    simp only [detectNestedClosures]
    apply dncProps_inv
    apply dncBody_inv
    have h1 : StInv (if maxD < (if isFnType ty then depth + 1 else depth) then
        (if st.1.contains (loc.getD 0) then st
         else (st.1 ++ [loc.getD 0],
           st.2 ++ [(loc.getD 0, if isFnType ty then depth + 1 else depth)]))
        else st) := by
      by_cases hmd : maxD < (if isFnType ty then depth + 1 else depth)
      · rw [if_pos hmd]
        exact report_inv st (loc.getD 0) _ h
      · rw [if_neg hmd]
        exact h
    split
    · exact dncArgs_inv maxD args _ _ h1
    · exact h1

theorem dncArgs_inv (maxD : Nat) : ∀ (ns : List JSNode) (depth : Nat) (st : NCState),
    StInv st → StInv (dncArgs maxD ns depth st)
  | [], _, _, h => h
  | a :: rest, depth, st, h => by
    rw [dncArgs]
    apply dncArgs_inv maxD rest depth
    split
    · exact dnc_inv maxD a depth st h
    · exact h

theorem dncBody_inv (maxD : Nat) : ∀ (b : JSBody) (depth : Nat) (st : NCState),
    StInv st → StInv (dncBody maxD b depth st)
  | .noBody, _, _, h => h
  | .one n, depth, st, h => dnc_inv maxD n depth st h
  | .many ns, depth, st, h => dncBodyList_inv maxD ns depth st h

theorem dncBodyList_inv (maxD : Nat) : ∀ (ns : List JSNode) (depth : Nat) (st : NCState),
    StInv st → StInv (dncBodyList maxD ns depth st)
  | [], _, _, h => h
  | n :: ns, depth, st, h =>
    dncBodyList_inv maxD ns depth _ (dnc_inv maxD n depth st h)

theorem dncProps_inv (maxD : Nat) : ∀ (ps : List JSProp) (depth : Nat) (st : NCState),
    StInv st → StInv (dncProps maxD ps depth st)
  | [], _, _, h => h
  | .nodeProp n :: rest, depth, st, h =>
    dncProps_inv maxD rest depth _ (dnc_inv maxD n depth st h)
  | .arrProp _ :: rest, depth, st, h => dncProps_inv maxD rest depth st h

end

theorem trigLines_eq_drop (maxD : Nat) : ∀ (ls : List Nat) (d : Nat),
    trigLines maxD ls d = ls.drop (maxD - d) := by
  intro ls
  induction ls with
  | nil => intro d; simp [trigLines]
  | cons l ls ih =>
    intro d
    rw [trigLines, ih (d + 1)]
    by_cases h : maxD < d + 1
    · rw [if_pos h]
      have h0 : maxD - d = 0 := by omega
      have h1 : maxD - (d + 1) = 0 := by omega
      rw [h0, h1]
      simp
    · rw [if_neg h]
      have h0 : maxD - d = (maxD - (d + 1)) + 1 := by omega
      rw [h0, List.nil_append, List.drop_succ_cons]

theorem chainAt_state (maxD : Nat) : ∀ (rest : List Nat) (l0 d : Nat) (rep : List Nat)
    (iss : List (Nat × Nat)),
    (∀ x, x ∈ (detectNestedClosures maxD (chainAt l0 rest) d (rep, iss)).1 ↔
        x ∈ rep ∨ x ∈ trigLines maxD (l0 :: rest) d) ∧
    (∀ x, x ∈ ((detectNestedClosures maxD (chainAt l0 rest) d (rep, iss)).2).map
        Prod.fst ↔
        x ∈ iss.map Prod.fst ∨ (x ∈ trigLines maxD (l0 :: rest) d ∧ x ∉ rep)) := by
  intro rest
  induction rest with
  | nil =>
    intro l0 d rep iss
    simp only [chainAt, detectNestedClosures, isFnType_arrow, if_true,
      arrow_beq_call, Bool.false_eq_true, if_false, dncBody, dncProps,
      Option.getD_some]
    by_cases hlt : maxD < d + 1
    · have hT : trigLines maxD [l0] d = [l0] := by
        rw [trigLines, trigLines, if_pos hlt, List.append_nil]
      rw [hT]
      by_cases hc : rep.contains l0
      · have hmem : l0 ∈ rep := List.elem_iff.mp hc
        rw [if_pos hlt, if_pos hc]
        refine ⟨fun x => ?_, fun x => ?_⟩ <;>
        · simp only [List.mem_singleton]
          by_cases hxl : x = l0
          · subst hxl
            tauto
          · tauto
      · have hnm : l0 ∉ rep := fun hx => hc (List.elem_iff.mpr hx)
        rw [if_pos hlt, if_neg hc]
        refine ⟨fun x => ?_, fun x => ?_⟩
        · simp only [List.mem_append, List.mem_singleton]
        · simp only [List.map_append, List.mem_append, List.map_cons, List.map_nil,
            List.mem_singleton]
          by_cases hxl : x = l0
          · subst hxl
            tauto
          · tauto
    · have hT : trigLines maxD [l0] d = [] := by
        rw [trigLines, trigLines, if_neg hlt, List.append_nil]
      rw [hT, if_neg hlt]
      refine ⟨fun x => ?_, fun x => ?_⟩ <;> simp
  | cons l1 rest' ih =>
    intro l0 d rep iss
    simp only [chainAt, detectNestedClosures, isFnType_arrow, if_true,
      arrow_beq_call, Bool.false_eq_true, if_false, dncBody, dncProps,
      Option.getD_some]
    by_cases hlt : maxD < d + 1
    · have hT : trigLines maxD (l0 :: l1 :: rest') d =
          l0 :: trigLines maxD (l1 :: rest') (d + 1) := by
        conv_lhs => rw [trigLines]
        rw [if_pos hlt, List.singleton_append]
      rw [hT]
      by_cases hc : rep.contains l0
      · have hmem : l0 ∈ rep := List.elem_iff.mp hc
        rw [if_pos hlt, if_pos hc]
        obtain ⟨ha, hb⟩ := ih l1 (d + 1) rep iss
        refine ⟨fun x => ?_, fun x => ?_⟩
        · rw [ha x]
          simp only [List.mem_cons]
          by_cases hxl : x = l0
          · subst hxl
            tauto
          · tauto
        · rw [hb x]
          simp only [List.mem_cons]
          by_cases hxl : x = l0
          · subst hxl
            tauto
          · tauto
      · have hnm : l0 ∉ rep := fun hx => hc (List.elem_iff.mpr hx)
        rw [if_pos hlt, if_neg hc]
        obtain ⟨ha, hb⟩ := ih l1 (d + 1) (rep ++ [l0]) (iss ++ [(l0, d + 1)])
        refine ⟨fun x => ?_, fun x => ?_⟩
        · rw [ha x]
          simp only [List.mem_append, List.mem_singleton, List.mem_cons]
          tauto
        · rw [hb x]
          simp only [List.map_append, List.mem_append, List.map_cons, List.map_nil,
            List.mem_singleton, List.mem_cons, not_or]
          by_cases hxl : x = l0
          · subst hxl
            tauto
          · tauto
    · have hT : trigLines maxD (l0 :: l1 :: rest') d =
          trigLines maxD (l1 :: rest') (d + 1) := by
        conv_lhs => rw [trigLines]
        rw [if_neg hlt, List.nil_append]
      rw [hT, if_neg hlt]
      obtain ⟨ha, hb⟩ := ih l1 (d + 1) rep iss
      exact ⟨ha, hb⟩

/-- C3: on a chain of `maxD + k` nested arrow functions (`k ≥ 1`) whose
source lines `l0 :: rest` are arbitrary — several arrows may share one line,
as in `a => b => c => d => e` written on a single line — the analyzer
reports exactly one violation per unique triggering line and never two for
the same line within one top-level call: the reported lines are pairwise
distinct, a line is reported if and only if it is a triggering line (a line
of `(l0 :: rest).drop maxD`, the arrows nested deeper than `maxD`), and at
least one violation is reported. -/
theorem chain_one_violation_per_unique_line (maxD k l0 : Nat) (rest : List Nat)
    (hk : 1 ≤ k) (hlen : (l0 :: rest).length = maxD + k) :
    (((detectNestedClosures maxD (chainAt l0 rest) 0 ([], [])).2).map Prod.fst).Nodup ∧
      (∀ x, x ∈ ((detectNestedClosures maxD (chainAt l0 rest) 0 ([], [])).2).map
          Prod.fst ↔ x ∈ (l0 :: rest).drop maxD) ∧
      (detectNestedClosures maxD (chainAt l0 rest) 0 ([], [])).2 ≠ [] := by
  have hinv := dnc_inv maxD (chainAt l0 rest) 0 ([], [])
    ⟨List.nodup_nil, by simp⟩
  have hiff : ∀ x, x ∈ ((detectNestedClosures maxD (chainAt l0 rest) 0 ([], [])).2).map
      Prod.fst ↔ x ∈ (l0 :: rest).drop maxD := by
    intro x
    rw [(chainAt_state maxD rest l0 0 [] []).2 x, trigLines_eq_drop]
    simp
  refine ⟨hinv.1, hiff, ?_⟩
  have hne : (l0 :: rest).drop maxD ≠ [] := by
    intro hdrop
    have hlen2 := congrArg List.length hdrop
    rw [List.length_drop, hlen] at hlen2
    simp at hlen2
    omega
  rcases List.exists_mem_of_ne_nil _ hne with ⟨x, hx⟩
  intro hissnil
  have hx2 := (hiff x).mpr hx
  rw [hissnil] at hx2
  simp at hx2

theorem chain_one_violation_per_unique_line_witness :
    1 ≤ 2 ∧ ((7 :: [7, 7, 7, 7] : List Nat).length = 3 + 2) ∧
      ((((detectNestedClosures 3 (chainAt 7 [7, 7, 7, 7]) 0 ([], [])).2).map
          Prod.fst).Nodup ∧
        (∀ x, x ∈ ((detectNestedClosures 3 (chainAt 7 [7, 7, 7, 7]) 0 ([], [])).2).map
            Prod.fst ↔ x ∈ (7 :: [7, 7, 7, 7] : List Nat).drop 3) ∧
        (detectNestedClosures 3 (chainAt 7 [7, 7, 7, 7]) 0 ([], [])).2 ≠ []) :=
  ⟨by decide, by decide,
    chain_one_violation_per_unique_line 3 2 7 [7, 7, 7, 7] (by decide) (by decide)⟩

/-- C4: function-like nesting that is reachable from the root only through
an array-valued property other than `body` (a `const` declaration's
declarator list) or through a non-function-like call argument (an object
literal) is never traversed: whatever subtrees `hidden1`/`hidden2` hold —
arrow chains of arbitrary nesting depth included — the analyzer reports zero
violations. -/
theorem hidden_nesting_reports_nothing (maxD : Nat) (hidden1 hidden2 : List JSNode)
    (l1 l2 : Nat) :
    (detectNestedClosures maxD (hiddenProg hidden1 hidden2 l1 l2) 0 ([], [])).2 = [] :=
  rfl

/-- C6: on a parse failure, both AST-based checks contribute an empty issue
list and surface the parse error as one diagnostic each (the `console.error`
in their `catch` blocks), instead of raising. -/
theorem parse_failure_no_issues (e : String) :
    nestedCallbacksCheck (.error e) = ([], ["Error parsing file: " ++ e]) ∧
      duplicateCodeCheck (.error e) = ([], ["Error parsing file: " ++ e]) :=
  ⟨rfl, rfl⟩

theorem levRec_nil_right : ∀ P : List Char, levRec P [] = P.length
  | [] => by rw [levRec]
  | _ :: _ => by rw [levRec]; rfl

theorem rowVals_head (P T s : List Char) :
    rowVals P T s = levRec P T :: (rowVals P T s).tail := by
  cases s <;> rfl

theorem rowVals_headD (P T s : List Char) :
    (rowVals P T s).headD 0 = levRec P T := by
  cases s <;> rfl

theorem levRowAux_spec (c2 : Char) : ∀ (s P T : List Char),
    levRowAux c2 s (rowVals P T s) (levRec P (c2 :: T)) = (rowVals P (c2 :: T) s).tail := by
  intro s
  induction s with
  | nil => intro P T; rfl
  | cons c1 rest ih =>
    intro P T
    show levRowAux c2 (c1 :: rest) (levRec P T :: rowVals (c1 :: P) T rest)
        (levRec P (c2 :: T)) = (rowVals P (c2 :: T) (c1 :: rest)).tail
    rw [levRowAux]
    have hcell : min (levRec P (c2 :: T) + 1)
        (min ((rowVals (c1 :: P) T rest).headD 0 + 1)
          (levRec P T + if c1 = c2 then 0 else 1)) = levRec (c1 :: P) (c2 :: T) := by
      rw [rowVals_headD]
      conv_rhs => rw [levRec]
    rw [hcell, ih (c1 :: P) T]
    show levRec (c1 :: P) (c2 :: T) :: (rowVals (c1 :: P) (c2 :: T) rest).tail =
      (levRec P (c2 :: T) :: rowVals (c1 :: P) (c2 :: T) rest).tail
    rw [← rowVals_head]
    rfl

theorem levRows_spec (s1 : List Char) : ∀ (b T : List Char),
    levRows s1 b (rowVals [] T s1) = rowVals [] (b.reverse ++ T) s1 := by
  intro b
  induction b with
  | nil => intro T; simp [levRows]
  | cons c2 rest ih =>
    intro T
    rw [levRows, rowVals_headD]
    have hone : levRec [] T + 1 = levRec [] (c2 :: T) := by
      rw [levRec, levRec]
      rfl
    rw [hone, levRowAux_spec, ← rowVals_head, ih (c2 :: T)]
    have : rest.reverse ++ (c2 :: T) = (c2 :: rest).reverse ++ T := by simp
    rw [this]

theorem rowVals_nil_T : ∀ (s P : List Char),
    rowVals P [] s = List.range' P.length (s.length + 1) := by
  intro s
  induction s with
  | nil =>
    intro P
    rw [rowVals, levRec_nil_right]
    rfl
  | cons c rest ih =>
    intro P
    rw [rowVals, levRec_nil_right, ih (c :: P)]
    show _ = List.range' P.length (rest.length + 1 + 1)
    rw [List.range'_succ]
    rfl

theorem rowVals_getLast? : ∀ (s P T : List Char),
    (rowVals P T s).getLast? = some (levRec (s.reverse ++ P) T) := by
  intro s
  induction s with
  | nil =>
    intro P T
    rw [rowVals]
    simp
  | cons c rest ih =>
    intro P T
    rw [rowVals, rowVals_head (c :: P), List.getLast?_cons_cons, ← rowVals_head,
      ih (c :: P) T]
    have : rest.reverse ++ (c :: P) = (c :: rest).reverse ++ P := by simp
    rw [this]

theorem string_toList_length (s : String) : s.toList.length = s.length := rfl

theorem levenshteinDistance_eq_levRec (s1 s2 : String) :
    levenshteinDistance s1 s2 = levRec s1.toList.reverse s2.toList.reverse := by
  unfold levenshteinDistance
  have h0 : List.range (s1.length + 1) = rowVals [] [] s1.toList := by
    rw [rowVals_nil_T, List.range_eq_range']
    rfl
  rw [h0, levRows_spec, List.append_nil, List.getLastD_eq_getLast?, rowVals_getLast?,
    List.append_nil]
  rfl

theorem levRec_symm (a : List Char) : ∀ b : List Char, levRec a b = levRec b a := by
  induction a with
  | nil =>
    intro b
    cases b with
    | nil => rfl
    | cons y ys => rw [levRec, levRec_nil_right]
  | cons x xs ihx =>
    intro b
    induction b with
    | nil => rw [levRec, levRec_nil_right]
    | cons y ys ihy =>
      rw [levRec]
      conv_rhs => rw [levRec]
      rw [ihx (y :: ys), ihx ys, ← ihy]
      have hind : (if x = y then 0 else 1) = (if y = x then 0 else 1) := by
        by_cases h : x = y
        · rw [if_pos h, if_pos h.symm]
        · rw [if_neg h, if_neg (fun hyx => h hyx.symm)]
      rw [hind]
      rw [min_left_comm]

theorem levRec_le_max (a : List Char) : ∀ b : List Char,
    levRec a b ≤ max a.length b.length := by
  induction a with
  | nil =>
    intro b
    rw [levRec]
    exact le_max_right _ _
  | cons x xs ihx =>
    intro b
    induction b with
    | nil =>
      rw [levRec_nil_right]
      exact le_max_left _ _
    | cons y ys ihy =>
      rw [levRec]
      have h3 : levRec xs ys + (if x = y then 0 else 1) ≤ max xs.length ys.length + 1 := by
        have := ihx ys
        have hle : (if x = y then 0 else 1) ≤ 1 := by split <;> omega
        omega
      have hchain : min (levRec xs (y :: ys) + 1)
            (min (levRec (x :: xs) ys + 1) (levRec xs ys + if x = y then 0 else 1)) ≤
          levRec xs ys + (if x = y then 0 else 1) :=
        (min_le_right _ _).trans (min_le_right _ _)
      have hmax : max (x :: xs).length (y :: ys).length = max xs.length ys.length + 1 := by
        simp only [List.length_cons]
        omega
      omega

theorem levenshteinDistance_symm (s1 s2 : String) :
    levenshteinDistance s1 s2 = levenshteinDistance s2 s1 := by
  rw [levenshteinDistance_eq_levRec, levenshteinDistance_eq_levRec, levRec_symm]

theorem levenshteinDistance_le (s1 s2 : String) :
    levenshteinDistance s1 s2 ≤ max s1.length s2.length := by
  rw [levenshteinDistance_eq_levRec]
  have h := levRec_le_max s1.toList.reverse s2.toList.reverse
  simpa [List.length_reverse, string_toList_length] using h

/-- C8: the scalar similarity score is symmetric in the two block texts. -/
theorem analyzeSimilarity_symm (s1 s2 : String) :
    (analyzeSimilarity s1 s2).similarity = (analyzeSimilarity s2 s1).similarity := by
  unfold analyzeSimilarity
  by_cases he : s1 = s2
  · subst he
    simp
  · have he' : ¬ s2 = s1 := fun h => he h.symm
    rw [if_neg he, if_neg he']
    by_cases hs : s1.length < MIN_DUPLICATE_LENGTH ∨ s2.length < MIN_DUPLICATE_LENGTH
    · rw [if_pos hs, if_pos (Or.symm hs)]
    · rw [if_neg hs, if_neg (fun h => hs (Or.symm h))]
      dsimp only
      rcases Nat.lt_trichotomy s2.length s1.length with hlt | heq | hgt
      · have h2 : ¬ s1.length < s2.length := by omega
        simp [hlt, h2]
      · have h1 : ¬ s2.length < s1.length := by omega
        have h2 : ¬ s1.length < s2.length := by omega
        have hd : levenshteinDistance s2 s1 = levenshteinDistance s1 s2 :=
          levenshteinDistance_symm s2 s1
        simp only [h1, h2, if_neg, if_false, ite_false]
        rw [hd, heq]
      · have h1 : ¬ s2.length < s1.length := by omega
        simp [h1, hgt]

/-- C10: for texts at least `MIN_DUPLICATE_LENGTH` long, the scalar
similarity `(maxLen - editDistance) / maxLen` lies in `[0, 1]` and its
divisor — the longer text's length — is nonzero. -/
theorem similarity_in_unit_range (s1 s2 : String)
    (h1 : MIN_DUPLICATE_LENGTH ≤ s1.length) (h2 : MIN_DUPLICATE_LENGTH ≤ s2.length) :
    0 ≤ (analyzeSimilarity s1 s2).similarity ∧
      (analyzeSimilarity s1 s2).similarity ≤ 1 ∧
      ((if s2.length < s1.length then s1 else s2).length : ℚ) ≠ 0 := by
  have hL : MIN_DUPLICATE_LENGTH ≤ (if s2.length < s1.length then s1 else s2).length := by
    split <;> assumption
  have hLpos : 0 < (if s2.length < s1.length then s1 else s2).length := by
    unfold MIN_DUPLICATE_LENGTH at hL
    omega
  have hLQ : (0 : ℚ) < ((if s2.length < s1.length then s1 else s2).length : ℚ) := by
    exact_mod_cast hLpos
  have hsim : 0 ≤ (analyzeSimilarity s1 s2).similarity ∧
      (analyzeSimilarity s1 s2).similarity ≤ 1 := by
    unfold analyzeSimilarity
    by_cases he : s1 = s2
    · rw [if_pos he]
      constructor <;> norm_num
    · rw [if_neg he, if_neg (by omega)]
      dsimp only
      have hd : levenshteinDistance (if s2.length < s1.length then s1 else s2)
          (if s2.length < s1.length then s2 else s1) ≤
          (if s2.length < s1.length then s1 else s2).length := by
        have hb := levenshteinDistance_le (if s2.length < s1.length then s1 else s2)
          (if s2.length < s1.length then s2 else s1)
        have hmax : max (if s2.length < s1.length then s1 else s2).length
            (if s2.length < s1.length then s2 else s1).length =
            (if s2.length < s1.length then s1 else s2).length := by
          split <;> omega
        omega
      have hdQ : ((levenshteinDistance (if s2.length < s1.length then s1 else s2)
          (if s2.length < s1.length then s2 else s1) : ℚ)) ≤
          ((if s2.length < s1.length then s1 else s2).length : ℚ) := by
        exact_mod_cast hd
      have hd0 : (0 : ℚ) ≤ (levenshteinDistance (if s2.length < s1.length then s1 else s2)
          (if s2.length < s1.length then s2 else s1) : ℚ) := by positivity
      constructor
      · exact div_nonneg (by linarith) (le_of_lt hLQ)
      · exact (div_le_one hLQ).mpr (by linarith)
  exact ⟨hsim.1, hsim.2, ne_of_gt hLQ⟩

theorem similarity_in_unit_range_witness :
    MIN_DUPLICATE_LENGTH ≤ ("abcde" : String).length ∧
      MIN_DUPLICATE_LENGTH ≤ ("vwxyz" : String).length ∧
      (0 ≤ (analyzeSimilarity "abcde" "vwxyz").similarity ∧
        (analyzeSimilarity "abcde" "vwxyz").similarity ≤ 1 ∧
        ((if ("vwxyz" : String).length < ("abcde" : String).length then ("abcde" : String)
            else ("vwxyz" : String)).length : ℚ) ≠ 0) :=
  ⟨by decide, by decide,
    similarity_in_unit_range "abcde" "vwxyz" (by decide) (by decide)⟩

theorem foldl_simStep_eq_collectClusters :
    ∀ (cells : List (Option (Nat × Nat × String))) (cur : List MatchItem)
      (ms : List (List MatchItem)),
    (List.foldl simStep (cur, ms) cells).2 = ms ++ collectClusters cur cells := by
  intro cells
  induction cells with
  | nil =>
    intro cur ms
    simp [collectClusters]
  | cons cell rest ih =>
    intro cur ms
    match cell with
    | some (i, j, t) =>
      rw [List.foldl_cons]
      show (List.foldl simStep (cur ++ [MatchItem.cell i j t], ms) rest).2 = _
      rw [ih, collectClusters]
    | none =>
      rw [List.foldl_cons]
      show (List.foldl simStep
        (if 0 < cur.length then
          if 2 ≤ cur.length then ([], ms ++ [cur]) else ([], ms)
        else (cur, ms)) rest).2 = ms ++ collectClusters cur (none :: rest)
      rw [collectClusters]
      by_cases h0 : 0 < cur.length
      · by_cases h2 : 2 ≤ cur.length
        · rw [if_pos h0, if_pos h2, ih, if_pos h2]
          simp
        · rw [if_pos h0, if_neg h2, ih, if_neg h2]
          simp
      · have hcur : cur = [] := by
          cases cur with
          | nil => rfl
          | cons a l => exact absurd (by simp) h0
        subst hcur
        rw [if_neg h0, ih]
        simp

/-- C5: for distinct, non-short block texts, the reported clusters are
exactly the maximal runs of two or more consecutively matching `(i, j)`
pairs of the row-major comparison sequence that are terminated by a later
mismatching pair; a qualifying run that is still open when the loops end —
one that ends at the final line pair — is discarded, not reported. -/
theorem analyzeSimilarity_matches_clusters (s1 s2 : String) (hne : s1 ≠ s2)
    (hlen : ¬(s1.length < MIN_DUPLICATE_LENGTH ∨ s2.length < MIN_DUPLICATE_LENGTH)) :
    (analyzeSimilarity s1 s2).matches' =
      collectClusters [] (simCells (splitLines s1) (splitLines s2)) := by
  unfold analyzeSimilarity
  rw [if_neg hne, if_neg hlen]
  dsimp only
  rw [foldl_simStep_eq_collectClusters]
  simp [collectClusters]

theorem analyzeSimilarity_matches_clusters_witness :
    ("aaaa\nbbbb\nx" : String) ≠ "aaaa\nbbbb\ny" ∧
      ¬(("aaaa\nbbbb\nx" : String).length < MIN_DUPLICATE_LENGTH ∨
          ("aaaa\nbbbb\ny" : String).length < MIN_DUPLICATE_LENGTH) ∧
      (analyzeSimilarity "aaaa\nbbbb\nx" "aaaa\nbbbb\ny").matches' =
        collectClusters []
          (simCells (splitLines "aaaa\nbbbb\nx") (splitLines "aaaa\nbbbb\ny")) :=
  ⟨by decide, by decide,
    analyzeSimilarity_matches_clusters "aaaa\nbbbb\nx" "aaaa\nbbbb\ny"
      (by decide) (by decide)⟩

/-- C5 counterexample: in `"xxxx\naaaa"` against `"aaaa\naaaa"` the final
two row-major pairs both match (`"aaaa"` at `(2,1)` and `(2,2)`), a run of
length 2 that ends at the final line pair of the comparison, yet
`analyzeSimilarity` reports no cluster at all: the loop never flushes
`currentMatch` after the last iteration. -/
theorem trailing_run_not_reported :
    simCells (splitLines "xxxx\naaaa") (splitLines "aaaa\naaaa") =
        [none, none, some (2, 1, "aaaa"), some (2, 2, "aaaa")] ∧
      (analyzeSimilarity "xxxx\naaaa" "aaaa\naaaa").matches' = [] := by
  constructor
  · decide
  · rfl

theorem find?_append_split (p : Nat × CodeBlock → Bool) :
    ∀ (l1 l2 : List (Nat × CodeBlock)),
    (l1 ++ l2).find? p =
      match l1.find? p with
      | some q => some q
      | none => l2.find? p := by
  intro l1 l2
  induction l1 with
  | nil => simp
  | cons q rest ih =>
    by_cases hq : p q
    · rw [List.cons_append, List.find?_cons_of_pos _ hq, List.find?_cons_of_pos _ hq]
    · rw [List.cons_append, List.find?_cons_of_neg _ hq, List.find?_cons_of_neg _ hq, ih]

theorem mapGet_mapSet (m : List (Nat × CodeBlock)) (a k : Nat) (v : CodeBlock) :
    mapGet (mapSet m a v) k = if a == k then some v else mapGet m k := by
  unfold mapSet mapGet
  by_cases hmem : m.any (fun p => p.1 == a)
  · rw [if_pos hmem, List.find?_map]
    have hpred : ((fun p : Nat × CodeBlock => p.1 == k) ∘
        (fun p => if p.1 == a then (a, v) else p)) = fun p => p.1 == k := by
      funext q
      simp only [Function.comp]
      by_cases hq : q.1 == a
      · have e : q.1 = a := by simpa using hq
        rw [if_pos hq]
        simp [e]
      · rw [if_neg hq]
    rw [hpred]
    by_cases hak : a == k
    · have eak : a = k := by simpa using hak
      cases hf : m.find? (fun p => p.1 == k) with
      | none =>
        exfalso
        rcases List.any_eq_true.mp hmem with ⟨q, hqm, hqa⟩
        have : ¬ (q.1 == k) = true := List.find?_eq_none.mp hf q hqm
        have e : q.1 = a := by simpa using hqa
        exact this (by simp [e, eak])
      | some q =>
        have hqk : (q.1 == k) = true := by
          have := List.find?_some hf
          simpa using this
        have hqa : (q.1 == a) = true := by
          have e : q.1 = k := by simpa using hqk
          simp [e, eak]
        rw [if_pos hak]
        simp only [Option.map_some']
        rw [if_pos hqa]
    · cases hf : m.find? (fun p => p.1 == k) with
      | none => rw [if_neg hak]; simp
      | some q =>
        have hqk : (q.1 == k) = true := by
          have := List.find?_some hf
          simpa using this
        have hqa : ¬ (q.1 == a) = true := by
          intro hc
          have e1 : q.1 = a := by simpa using hc
          have e2 : q.1 = k := by simpa using hqk
          exact hak (by simp [← e1, e2])
        rw [if_neg hak]
        simp only [Option.map_some']
        rw [if_neg hqa]
  · rw [if_neg hmem, find?_append_split]
    by_cases hak : a == k
    · have hnone : m.find? (fun p => p.1 == k) = none := by
        rw [List.find?_eq_none]
        intro q hqm hqk
        apply hmem
        refine List.any_eq_true.mpr ⟨q, hqm, ?_⟩
        have e1 : q.1 = k := by simpa using hqk
        have e2 : a = k := by simpa using hak
        simp [e1, e2]
      rw [hnone, if_pos hak]
      simp [List.find?, hak]
      
    · cases hf : m.find? (fun p => p.1 == k) with
      | some q => rw [if_neg hak]
      | none =>
        rw [if_neg hak]
        simp [List.find?, hak]

theorem mapSet_keys (m : List (Nat × CodeBlock)) (a : Nat) (v : CodeBlock) :
    (mapSet m a v).map Prod.fst =
      if m.any (fun p => p.1 == a) then m.map Prod.fst
      else m.map Prod.fst ++ [a] := by
  unfold mapSet
  by_cases hmem : m.any (fun p => p.1 == a)
  · rw [if_pos hmem, if_pos hmem, List.map_map]
    apply List.map_congr_left
    intro q _
    simp only [Function.comp]
    by_cases hq : q.1 == a
    · have e : q.1 = a := by simpa using hq
      rw [if_pos hq, e]
    · rw [if_neg hq]
  · rw [if_neg hmem, if_neg hmem, List.map_append]
    rfl

theorem mapSet_keys_nodup (m : List (Nat × CodeBlock)) (a : Nat) (v : CodeBlock)
    (h : (m.map Prod.fst).Nodup) : ((mapSet m a v).map Prod.fst).Nodup := by
  rw [mapSet_keys]
  by_cases hmem : m.any (fun p => p.1 == a)
  · rw [if_pos hmem]; exact h
  · rw [if_neg hmem]
    rw [List.nodup_append]
    refine ⟨h, List.nodup_singleton a, ?_⟩
    intro x hx hxa
    rcases List.mem_map.mp hx with ⟨q, hqm, hqx⟩
    rcases List.mem_singleton.mp hxa with rfl
    apply hmem
    exact List.any_eq_true.mpr ⟨q, hqm, by simp [hqx]⟩

theorem foldl_mapSet_nodup : ∀ (cs m : List (Nat × CodeBlock)),
    (m.map Prod.fst).Nodup →
    (((cs.foldl (fun acc p => mapSet acc p.1 p.2) m)).map Prod.fst).Nodup := by
  intro cs
  induction cs with
  | nil => intro m h; exact h
  | cons c rest ih =>
    intro m h
    exact ih (mapSet m c.1 c.2) (mapSet_keys_nodup m c.1 c.2 h)

theorem foldl_mapSet_get : ∀ (cs m : List (Nat × CodeBlock)) (k : Nat),
    mapGet (cs.foldl (fun acc p => mapSet acc p.1 p.2) m) k =
      (match (cs.filter (fun p => p.1 == k)).getLast? with
        | some p => some p.2
        | none => mapGet m k) := by
  intro cs
  induction cs with
  | nil => intro m k; simp
  | cons c rest ih =>
    intro m k
    rw [List.foldl_cons, ih, List.filter_cons]
    by_cases hc : c.1 == k
    · rw [if_pos hc]
      cases hfr : List.filter (fun p => p.1 == k) rest with
      | nil =>
        simp only [List.getLast?_singleton, List.getLast?_nil]
        rw [mapGet_mapSet, if_pos hc]
      | cons q t =>
        rw [List.getLast?_cons_cons]
        cases hgl : (q :: t).getLast? with
        | none => simp at hgl
        | some x => rfl
    · rw [if_neg hc]
      cases hfr : List.filter (fun p => p.1 == k) rest with
      | nil =>
        simp only [List.getLast?_nil]
        rw [mapGet_mapSet, if_neg hc]
      | cons q t =>
        cases hgl : (q :: t).getLast? with
        | none => simp at hgl
        | some x => rfl

theorem blockCandidates_minlen (root : JSNode) :
    ∀ p ∈ blockCandidates root, MIN_DUPLICATE_LENGTH ≤ p.2.code.length := by
  intro p hp
  unfold blockCandidates at hp
  rcases List.mem_filterMap.mp hp with ⟨n, _, hn⟩
  by_cases h : isDupBlockType n.ty ∧ MIN_DUPLICATE_LENGTH ≤ n.gen.length
  · rw [if_pos h] at hn
    obtain rfl := Option.some.inj hn
    exact h.2
  · rw [if_neg h] at hn
    cases hn

theorem mapSet_values (P : CodeBlock → Prop) (m : List (Nat × CodeBlock)) (a : Nat)
    (v : CodeBlock) (hm : ∀ p ∈ m, P p.2) (hv : P v) :
    ∀ p ∈ mapSet m a v, P p.2 := by
  intro p hp
  unfold mapSet at hp
  split at hp
  · rcases List.mem_map.mp hp with ⟨q, hqm, hrepl⟩
    by_cases hq : q.1 == a
    · rw [if_pos hq] at hrepl
      rw [← hrepl]
      exact hv
    · rw [if_neg hq] at hrepl
      rw [← hrepl]
      exact hm q hqm
  · rcases List.mem_append.mp hp with h | h
    · exact hm p h
    · rcases List.mem_singleton.mp h with rfl
      exact hv

theorem foldl_mapSet_values (P : CodeBlock → Prop) :
    ∀ (cs m : List (Nat × CodeBlock)), (∀ p ∈ m, P p.2) → (∀ p ∈ cs, P p.2) →
    ∀ p ∈ cs.foldl (fun acc q => mapSet acc q.1 q.2) m, P p.2 := by
  intro cs
  induction cs with
  | nil => intro m hm _ p hp; exact hm p hp
  | cons c rest ih =>
    intro m hm hcs p hp
    refine ih (mapSet m c.1 c.2)
      (mapSet_values P m c.1 c.2 hm (hcs c (List.mem_cons_self c rest))) ?_ p hp
    intro q hq
    exact hcs q (List.mem_cons_of_mem c hq)

/-- C9: the `codeBlocks` map holds at most one block per start line (its
keys are pairwise distinct), and the block stored under a line is the last
candidate with that start line in visiting order — a later node sharing the
start line overwrites the earlier one. -/
theorem extractBlocks_last_wins (root : JSNode) (k : Nat) :
    ((extractBlocks root).map Prod.fst).Nodup ∧
      mapGet (extractBlocks root) k =
        (((blockCandidates root).filter (fun p => p.1 == k)).getLast?).map Prod.snd := by
  constructor
  · exact foldl_mapSet_nodup (blockCandidates root) [] (by simp)
  · rw [extractBlocks, foldl_mapSet_get]
    cases hl : ((blockCandidates root).filter (fun p => p.1 == k)).getLast? with
    | some p => simp
    | none => simp [mapGet]

/-- C7 amended: every block recorded in the `codeBlocks` map has regenerated
text of length at least `MIN_DUPLICATE_LENGTH` (shorter ones are dropped at
extraction), and a compared pair with a short member scores similarity 0
provided the two texts are not identical — identical texts take the
similarity-1 short-circuit before the length guard. -/
theorem short_blocks_dropped_and_score_zero :
    (∀ (root : JSNode) (p : Nat × CodeBlock), p ∈ extractBlocks root →
        MIN_DUPLICATE_LENGTH ≤ p.2.code.length) ∧
      (∀ s1 s2 : String, s1 ≠ s2 →
        (s1.length < MIN_DUPLICATE_LENGTH ∨ s2.length < MIN_DUPLICATE_LENGTH) →
        (analyzeSimilarity s1 s2).similarity = 0) := by
  constructor
  · intro root p hp
    refine foldl_mapSet_values (fun b => MIN_DUPLICATE_LENGTH ≤ b.code.length)
      (blockCandidates root) [] (by simp) ?_ p hp
    exact blockCandidates_minlen root
  · intro s1 s2 hne hshort
    rw [analyzeSimilarity, if_neg hne, if_pos hshort]

theorem short_blocks_dropped_and_score_zero_witness :
    ("ab" : String) ≠ "abcdef" ∧
      (("ab" : String).length < MIN_DUPLICATE_LENGTH ∨
        ("abcdef" : String).length < MIN_DUPLICATE_LENGTH) ∧
      (analyzeSimilarity "ab" "abcdef").similarity = 0 :=
  ⟨by decide, Or.inl (by decide),
    short_blocks_dropped_and_score_zero.2 "ab" "abcdef" (by decide)
      (Or.inl (by decide))⟩

/-- C7 counterexample: a two-character block is shorter than
`MIN_DUPLICATE_LENGTH`, yet compared against an identical copy it scores
similarity 1, not 0 — the identical-string short-circuit runs before the
length guard. -/
theorem short_identical_blocks_score_one :
    ("ab" : String).length < MIN_DUPLICATE_LENGTH ∧
      (analyzeSimilarity "ab" "ab").similarity = 1 ∧
      ¬ (analyzeSimilarity "ab" "ab").similarity = 0 := by
  refine ⟨by decide, ?_, ?_⟩
  · rw [analyzeSimilarity, if_pos rfl]
  · rw [analyzeSimilarity, if_pos rfl]
    norm_num

theorem analyzeSimilarity_self (s : String) :
    analyzeSimilarity s s = ⟨1, [[MatchItem.whole s, MatchItem.whole s]]⟩ := by
  simp [analyzeSimilarity]

theorem c1_blocks_eval : extractBlocks c1Prog =
    [(1, ⟨sixLineCode, "ArrowFunctionExpression", "anonymous"⟩),
     (8, ⟨sixLineCode, "ArrowFunctionExpression", "anonymous"⟩),
     (15, ⟨sixLineCode, "ArrowFunctionExpression", "anonymous"⟩)] := by
  decide

theorem c1_eval : (duplicateCodeCheck (.ok c1Prog)).1 = c1Issues := by
  have hthr : (SIMILARITY_THRESHOLD ≤ (1 : ℚ)) = True := by
    norm_num [SIMILARITY_THRESHOLD]
  rw [show (duplicateCodeCheck (.ok c1Prog)).1 = dupCompare (extractBlocks c1Prog) from
    rfl, c1_blocks_eval]
  simp +decide [dupCompare, List.foldl, dupPairStep, analyzeSimilarity_self, hthr]

/-- C1 counterexample: on a program with three identical six-line arrow
functions the Duplicate Code check emits three pairs, but no emitted pair
carries a line-cluster spanning all six lines of both blocks — the
identical-string short-circuit returns the degenerate match
`[[str1, str2]]`, whose projected "line lists" are the blocks' first
characters, not the line numbers 1 through 6. -/
theorem three_identical_blocks_no_six_line_cluster :
    ¬ ((duplicateCodeCheck (.ok c1Prog)).1.length = 3 ∧
      ∀ i ∈ (duplicateCodeCheck (.ok c1Prog)).1,
        i.similarLines.map (fun m => m.block1Lines) =
            [[JVal.num 1, .num 2, .num 3, .num 4, .num 5, .num 6]] ∧
          i.similarLines.map (fun m => m.block2Lines) =
            [[JVal.num 1, .num 2, .num 3, .num 4, .num 5, .num 6]]) := by
  rw [c1_eval]
  intro ⟨_, hall⟩
  have h0 := hall (c1Issues.get ⟨0, by norm_num [c1Issues]⟩ ) (by simp [c1Issues])
  revert h0
  decide

/-- C1 amended: on a program with three identical six-line arrow functions
at lines 1, 8 and 15, the Duplicate Code check reports exactly the three
unordered pairs (1,8), (1,15), (8,15); each compared pair of texts scores
scalar similarity exactly 1 through the identical-string short-circuit, and
each emitted issue carries exactly one match entry — the degenerate pair of
the two whole block texts, whose `m[0]`/`m[1]`/`m[2]` projections are the
first, second and third characters of the block text, not a line-cluster
spanning the six lines. -/
theorem three_identical_blocks_report :
    (duplicateCodeCheck (.ok c1Prog)).1 = c1Issues ∧
      (analyzeSimilarity sixLineCode sixLineCode).similarity = 1 ∧
      degenerateMapping =
        toLineMapping [MatchItem.whole sixLineCode, MatchItem.whole sixLineCode] := by
  refine ⟨c1_eval, ?_, by decide⟩
  rw [analyzeSimilarity_self]
